import Mathlib

/-!
# Verification of the CHAN_3 K-line data service

Shallow embedding of the core data-path functions of the repository
(`DataAPI/TimescaleAPI.py`, `DataAPI/kline_time_rules.py`,
`DataAPI/realtime_updater.py`, `Backend/data/batch_import_all_stocks.py`)
together with theorems settling the frozen claims about them.

Conventions used throughout the embedding:

* Calendar dates (`YYYY-MM-DD` strings in the source) are modelled as `Int`
  day numbers counted from an epoch that falls on a Monday; lexicographic
  comparison of `YYYY-MM-DD` strings coincides with `≤` on day numbers, and
  `timedelta(days = ±1)` becomes `± 1`.
* Instants within a trading day are modelled as minutes-of-day (`Nat`):
  09:30 = 570, 11:30 = 690, 13:00 = 780, 15:00 = 900.
* The third-party `chinese_calendar.is_workday` oracle and the Gregorian
  year-of-date map are external to the repository and appear as explicit
  function parameters (`workday`, `yearOf`).
-/

namespace Chan3

/-- Search direction of `adjust_to_trading_day` (the source's `direction`
string; any value other than `"backward"` steps forward). -/
inductive Direction where
  | backward
  | forward
deriving DecidableEq, Repr

/-- The day-step used by `adjust_to_trading_day`:
`delta = timedelta(days=-1 if direction == "backward" else 1)`. -/
def deltaOf : Direction → Int
  | .backward => -1
  | .forward => 1

/-- Embeds `is_trading_day` from `DataAPI/TimescaleAPI.py`: weekends are
never trading days; inside the supported year range 2004–2026 the external
`chinese_calendar.is_workday` oracle decides; outside it every weekday
counts as a trading day.  `workday` and `yearOf` stand for the external
library and the Gregorian calendar; the epoch is chosen so that
`d % 7 ∈ {5, 6}` means Saturday/Sunday. -/
def is_trading_day (workday : Int → Bool) (yearOf : Int → Int) (d : Int) : Bool :=
  if 5 ≤ (d % 7 + 7) % 7 then
    false
  else if 2004 ≤ yearOf d ∧ yearOf d ≤ 2026 then
    workday d
  else
    true

/-- The bounded search loop of `adjust_to_trading_day`
(`for _ in range(max_attempts): date_obj += delta; if is_trading_day: return`).
Returns `some` of the first trading day reached, `none` if the fuel runs out. -/
def adjustLoop (td : Int → Bool) (delta : Int) : Int → Nat → Option Int
  | _, 0 => none
  | cur, n + 1 =>
    let nxt := cur + delta
    if td nxt then some nxt else adjustLoop td delta nxt n

/-- Embeds `adjust_to_trading_day` from `DataAPI/TimescaleAPI.py`: a trading
day is returned unchanged; otherwise up to 30 single-day steps are taken in
the requested direction, and on failure the input date is returned. -/
def adjust_to_trading_day (td : Int → Bool) (date : Int) (dir : Direction) : Int :=
  if td date then date
  else
    match adjustLoop td (deltaOf dir) date 30 with
    | some t => t
    | none => date

/-- Embeds `_prev_trading_day` from `DataAPI/TimescaleAPI.py`:
`adjust_to_trading_day(date - 1 day, "backward")`. -/
def prev_trading_day (td : Int → Bool) (d : Int) : Int :=
  adjust_to_trading_day td (d - 1) .backward

/-- Embeds `_next_trading_day` from `DataAPI/TimescaleAPI.py`:
`adjust_to_trading_day(date + 1 day, "forward")`. -/
def next_trading_day (td : Int → Bool) (d : Int) : Int :=
  adjust_to_trading_day td (d + 1) .forward

/-- Embeds `_find_missing_ranges` from `DataAPI/TimescaleAPI.py`, with the
queried candles reduced to their normalised dates (`_normalize_date` of each
`CKLine_Unit.time`): an empty store yields the whole window; otherwise a
leading gap up to `prev_trading_day(first)` when `first > begin` and a
trailing gap from `next_trading_day(last)` when `last < end`. -/
def find_missing_ranges (td : Int → Bool) (begin_date end_date : Int)
    (dbDates : List Int) : List (Int × Int) :=
  match dbDates with
  | [] => [(begin_date, end_date)]
  | first :: rest =>
    let last := (first :: rest).getLast (by simp)
    (if first > begin_date then [(begin_date, prev_trading_day td first)] else []) ++
      (if last < end_date then [(next_trading_day td last, end_date)] else [])

/-- K-line resolutions handled by the realtime updater and the store
(`KLINE_TYPE_MAP` of `TimescaleAPI.py` / `TABLE_MAP` of
`realtime_updater.py`). -/
inductive KlineType where
  | daily
  | weekly
  | monthly
  | m60
  | m30
  | m15
  | m5
deriving DecidableEq, Repr

/-- The minute count `int(kline_type.replace("min", ""))` for minute
resolutions (unused for day/week/month). -/
def minutesOf : KlineType → Nat
  | .m60 => 60
  | .m30 => 30
  | .m15 => 15
  | .m5 => 5
  | _ => 0

/-- Whether the resolution takes the day/week/month branch of
`update_realtime_kline_smart`. -/
def isDailyLike : KlineType → Bool
  | .daily | .weekly | .monthly => true
  | _ => false

/-- Session boundaries of `KLineTimeRules`, as minutes-of-day:
09:30, 11:30, 13:00, 15:00. -/
def MORNING_START : Nat := 570
def MORNING_END : Nat := 690
def AFTERNOON_START : Nat := 780
def AFTERNOON_END : Nat := 900

/-- The `while current < session_end: append; current += minutes` loop of
`get_all_kline_times`, with explicit fuel bounding the iteration count (the
source loop runs at most 24 times for the supported minute counts, so any
fuel ≥ 24 is faithful). -/
def enumStarts : Nat → Nat → Nat → Nat → List Nat
  | 0, _, _, _ => []
  | fuel + 1, m, cur, stop =>
    if cur < stop then cur :: enumStarts fuel m (cur + m) stop else []

/-- Embeds `KLineTimeRules.get_all_kline_times` for one date: the daily
resolution has the single start 09:30; a minute resolution steps `m` minutes
from each session open while before the session close. -/
def get_all_kline_times (kt : KlineType) : List Nat :=
  match kt with
  | .daily => [MORNING_START]
  | _ =>
    let m := minutesOf kt
    enumStarts 120 m MORNING_START MORNING_END ++
      enumStarts 120 m AFTERNOON_START AFTERNOON_END

/-- The candle-scan loop of `get_kline_at_time`: returns the in-progress
candle containing `now`, or — only at the last candle — the finished last
candle once `now` has passed its end; `none` when the loop falls through. -/
def klineLoop (m now : Nat) : List Nat → Option (Nat × Nat × Bool)
  | [] => none
  | [s] =>
    if s ≤ now ∧ now < s + m then some (s, s + m, false)
    else if s + m ≤ now then some (s, s + m, true)
    else none
  | s :: s' :: rest =>
    if s ≤ now ∧ now < s + m then some (s, s + m, false)
    else klineLoop m now (s' :: rest)

/-- Embeds `KLineTimeRules.get_kline_at_time` (within a single date, `now`
as minutes-of-day): daily candles span 09:30–15:00 and are finished once
`now ≥ 15:00`; for minute resolutions the candle list is scanned, and when
the scan falls through the function returns the first candle unfinished
before the open, otherwise the last candle marked finished. -/
def get_kline_at_time (kt : KlineType) (now : Nat) : Nat × Nat × Bool :=
  match kt with
  | .daily => (MORNING_START, AFTERNOON_END, decide (AFTERNOON_END ≤ now))
  | _ =>
    let m := minutesOf kt
    let allTimes := get_all_kline_times kt
    match klineLoop m now allTimes with
    | some r => r
    | none =>
      match allTimes with
      | [] => (0, 0, false)
      | first :: rest =>
        if now < first then (first, first + m, false)
        else
          let lastStart := (first :: rest).getLast (by simp)
          (lastStart, lastStart + m, true)

/-- The per-day count of finished candles computed inside
`_check_today_data_exists`:
`sum(1 for kt in all_kline_times if now >= kt + minutes)`. -/
def finishedKlines (kt : KlineType) (now : Nat) : Nat :=
  (get_all_kline_times kt).countP (fun s => decide (s + minutesOf kt ≤ now))

/-- Embeds `_check_today_data_exists` from `DataAPI/realtime_updater.py`.
The two `COUNT(*)` queries are modelled by the `counts` argument: `.ok
(history_count, realtime_count)` for a successful fetch, `.error` when the
database raises (the source's `except` clause returns `False`).  For
day/week/month, completeness holds when the daily candle is finished and a
historical row exists (for weekly/monthly the source's
`get_kline_at_time` call raises `ValueError` on `int("weekly")`, caught by
the handler, so the check is `False`).  For minute resolutions,
completeness is `history + realtime ≥ finished ∧ finished > 0`. -/
def check_today_data_exists (kt : KlineType) (counts : Except Unit (Nat × Nat))
    (now : Nat) : Bool :=
  match counts with
  | .error _ => false
  | .ok (historyCount, realtimeCount) =>
    match kt with
    | .daily =>
      if (get_kline_at_time .daily now).2.2 ∧ 0 < historyCount then true
      else false
    | .weekly | .monthly => false
    | _ =>
      let totalCount := historyCount + realtimeCount
      if finishedKlines kt now ≤ totalCount ∧ 0 < finishedKlines kt now then true
      else false

/-- A stored or vendor candle row, reduced to its key: the candle's date
(`end_ts::date`) and the minutes-of-day of its `end_ts` (0 for day-level
rows).  The OHLCV payload plays no part in any claim and is omitted. -/
structure KRow where
  day : Int
  tmin : Nat
deriving DecidableEq, Repr

/-- The candle key `(end_ts)` of a row, as the (date, minutes) pair. -/
def KRow.endTs (r : KRow) : Int × Nat := (r.day, r.tmin)

/-- `INSERT ... ON CONFLICT DO UPDATE` on a keyed store: with the payload
omitted, upserting a row leaves the store unchanged when the key is already
present and appends it otherwise. -/
def upsertRow (store : List KRow) (r : KRow) : List KRow :=
  if r ∈ store then store else store ++ [r]

/-- Batch upsert (`executemany`) of a list of rows. -/
def upsertAll (store : List KRow) (rows : List KRow) : List KRow :=
  rows.foldl upsertRow store

/-- Result of `_update_minute_smart`: whether the AkShare vendor was
called, and the two stores afterwards. -/
structure MinuteUpdateResult where
  calledVendor : Bool
  hist : List KRow
  rt : List KRow
deriving DecidableEq, Repr

/-- Embeds `_update_minute_smart` from `DataAPI/realtime_updater.py`: if
`_check_today_data_exists` reports the day complete the vendor call is
skipped; otherwise the vendor rows (`df`, end-of-interval timestamps) are
restricted to today, rows with `now ≥ end_ts` are batch-upserted into the
historical store and the rest into the intraday store.  `now` is the
minutes-of-day of the current instant, whose date is `today`. -/
def update_minute_smart (kt : KlineType) (counts : Except Unit (Nat × Nat))
    (today : Int) (now : Nat) (df : List KRow) (hist rt : List KRow) :
    MinuteUpdateResult :=
  if check_today_data_exists kt counts now then
    ⟨false, hist, rt⟩
  else
    let dfToday := df.filter (fun r => r.day == today)
    let historyRecords := dfToday.filter (fun r => decide (r.tmin ≤ now))
    let realtimeRecords := dfToday.filter (fun r => ¬ decide (r.tmin ≤ now))
    ⟨true, upsertAll hist historyRecords, upsertAll rt realtimeRecords⟩

/-- Embeds `_update_daily_smart` from `DataAPI/realtime_updater.py`
(also reached for week/month types): skip when `_check_today_data_exists`;
otherwise, if the vendor returned a row for today, route it to the
historical store when the daily candle is finished (`now ≥ 15:00`) and to
the intraday store otherwise.  Day-level rows are keyed by date with
`tmin = 0`. -/
def update_daily_smart (kt : KlineType) (counts : Except Unit (Nat × Nat))
    (today : Int) (now : Nat) (dfNonempty : Bool) (hist rt : List KRow) :
    Bool × List KRow × List KRow :=
  if check_today_data_exists kt counts now then
    (false, hist, rt)
  else if dfNonempty then
    if (get_kline_at_time .daily now).2.2 then
      (true, upsertRow hist ⟨today, 0⟩, rt)
    else
      (true, hist, upsertRow rt ⟨today, 0⟩)
  else
    (true, hist, rt)

/-- Embeds `_update_index_daily_smart` from `DataAPI/realtime_updater.py`;
apart from the vendor endpoint and the turnover field (absent from the
modelled rows) it routes exactly like `_update_daily_smart`. -/
def update_index_daily_smart (kt : KlineType) (counts : Except Unit (Nat × Nat))
    (today : Int) (now : Nat) (dfNonempty : Bool) (hist rt : List KRow) :
    Bool × List KRow × List KRow :=
  if check_today_data_exists kt counts now then
    (false, hist, rt)
  else if dfNonempty then
    if (get_kline_at_time .daily now).2.2 then
      (true, upsertRow hist ⟨today, 0⟩, rt)
    else
      (true, hist, upsertRow rt ⟨today, 0⟩)
  else
    (true, hist, rt)

/-- Embeds `RealtimeDataUpdater.is_index_code`: structural prefixes
`sh.000` and `sz.399` (`str.startswith`, modelled as a character-list
prefix test). -/
def is_index_code (code : String) : Bool :=
  "sh.000".toList.isPrefixOf code.toList || "sz.399".toList.isPrefixOf code.toList

/-- Embeds `RealtimeDataUpdater.update_realtime_kline_smart`: dispatch on
resolution and index-ness.  Index symbols at minute resolutions log a
warning and return with both stores untouched; the surrounding
`try/except` re-raises vendor or database errors, so the result is an
`Except` (every branch of the pure model succeeds). -/
def update_realtime_kline_smart (code : String) (kt : KlineType)
    (counts : Except Unit (Nat × Nat)) (today : Int) (now : Nat)
    (dfDailyNonempty : Bool) (dfMin : List KRow) (hist rt : List KRow) :
    Except Unit (List KRow × List KRow) :=
  if isDailyLike kt then
    if is_index_code code then
      let (_, h, r) := update_index_daily_smart kt counts today now dfDailyNonempty hist rt
      .ok (h, r)
    else
      let (_, h, r) := update_daily_smart kt counts today now dfDailyNonempty hist rt
      .ok (h, r)
  else
    if is_index_code code then
      .ok (hist, rt)
    else
      let res := update_minute_smart kt counts today now dfMin hist rt
      .ok (res.hist, res.rt)

/-- Embeds the begin-date adjustment of `CTimescaleStockAPI.__init__`:
when a begin date is given it is raised to the symbol's list date (when
known) and then snapped forward to a trading day. -/
def init_begin_date (td : Int → Bool) (listDate : Option Int)
    (beginDate : Option Int) : Option Int :=
  match beginDate with
  | none => none
  | some b =>
    let b1 :=
      match listDate with
      | some l => if b < l then l else b
      | none => b
    some (adjust_to_trading_day td b1 .forward)

/-- Embeds `_query_from_database` from `DataAPI/TimescaleAPI.py` at the
level of row keys: the historical rows of the window (`begin ≤ date ≤ end`,
`ORDER BY` ascending — the table is passed in query order), then, when the
window reaches today and the resolution is in `KLINE_TYPE_MAP`
(`supported`), all of today's rows of the intraday table appended after
them.  No de-duplication of `end_ts` is performed. -/
def query_from_database (begin_date end_date today : Int) (supported : Bool)
    (hist rt : List KRow) : List KRow :=
  (hist.filter (fun r => decide (begin_date ≤ r.day) && decide (r.day ≤ end_date))) ++
    (if supported ∧ today ≤ end_date then rt.filter (fun r => r.day == today) else [])

/-- Embeds the symbol-selection logic of
`BatchStockDataImporter.batch_import`: a negative or out-of-range
`start_index` aborts (no symbols processed); otherwise the universe is
sliced from `start_index`, then truncated to `max_stocks` when that
argument is truthy (a Python `0` is falsy and does not truncate). -/
def batch_import_selection {α : Type} (allStocks : List α) (startIndex : Int)
    (maxStocks : Option Nat) : List α :=
  if startIndex < 0 then []
  else if (allStocks.length : Int) ≤ startIndex then []
  else
    let stocks := allStocks.drop startIndex.toNat
    match maxStocks with
    | some m => if m ≠ 0 then stocks.take m else stocks
    | none => stocks

/-- Embeds `main()` of `Backend/data/batch_import_all_stocks.py`: the
parsed `--start-index` argument is ignored — the call site passes the
hard-coded literal `477` (`start_index=args.start_index` is commented
out). -/
def batch_main_selection {α : Type} (argsStartIndex : Int) (argsMaxStocks : Option Nat)
    (allStocks : List α) : List α :=
  -- `argsStartIndex` is deliberately unused: the source ignores the parsed
  -- argument and passes the literal 477.
  batch_import_selection allStocks 477 argsMaxStocks

/-- Modelled from the spec: the repository's `Common.CTime` timestamp
record (not under `src/`), carrying the year, month, day, hour and minute
of a candle's `end_ts`. -/
structure CTime where
  year : Int
  month : Int
  day : Int
  hour : Int
  minute : Int
deriving DecidableEq, Repr

/-- Validity of a digit-and-underscore body for Python's `int()`: nonempty,
starts with a digit, underscores only single and between digits. -/
def okDigitsU : List Char → Bool
  | [] => false
  | [c] => c.isDigit
  | c :: '_' :: rest => c.isDigit && okDigitsU rest
  | c :: rest => c.isDigit && okDigitsU rest

/-- Numeric value of a digit list (underscores already removed). -/
def digitsVal (cs : List Char) : Nat :=
  cs.foldl (fun a c => a * 10 + (c.toNat - 48)) 0

/-- Model of Python's `int(str)`: surrounding whitespace stripped, optional
sign, then digits with optional single underscores between them; `none`
when `int()` would raise `ValueError`. -/
def pyInt (cs : List Char) : Option Int :=
  let t := ((cs.dropWhile Char.isWhitespace).reverse.dropWhile Char.isWhitespace).reverse
  match t with
  | '-' :: rest =>
    if okDigitsU rest then some (-(digitsVal (rest.filter (· ≠ '_')) : Int)) else none
  | '+' :: rest =>
    if okDigitsU rest then some ((digitsVal (rest.filter (· ≠ '_')) : Int)) else none
  | _ =>
    if okDigitsU t then some ((digitsVal (t.filter (· ≠ '_')) : Int)) else none

/-- Embeds `parse_time_column` from `DataAPI/TimescaleAPI.py`: strings of
fewer than 10 characters raise the "unknown time column format" exception;
otherwise the year/month/day are `int()` of the slices `[0:4]`, `[5:7]`,
`[8:10]` (an unparseable slice raises `ValueError`, uncaught); for strings
of at least 16 characters the hour and minute slices `[11:13]`, `[14:16]`
are attempted, failures falling back to 0 — the hour keeps its parsed value
when only the minute slice fails, mirroring the source's sequential
assignment inside `try`. -/
def parse_time_column (s : String) : Except String CTime :=
  let cs := s.toList
  if 10 ≤ cs.length then
    match pyInt (cs.take 4), pyInt ((cs.drop 5).take 2), pyInt ((cs.drop 8).take 2) with
    | some y, some mo, some d =>
      if 16 ≤ cs.length then
        match pyInt ((cs.drop 11).take 2) with
        | none => .ok ⟨y, mo, d, 0, 0⟩
        | some hh =>
          match pyInt ((cs.drop 14).take 2) with
          | none => .ok ⟨y, mo, d, hh, 0⟩
          | some mm => .ok ⟨y, mo, d, hh, mm⟩
      else .ok ⟨y, mo, d, 0, 0⟩
    | _, _, _ => .error "ValueError"
  else .error ("unknown time column format:" ++ s)

theorem adjustLoop_some_td {td : Int → Bool} {delta cur : Int} {n : Nat} {t : Int}
    (h : adjustLoop td delta cur n = some t) : td t = true := by
  induction n generalizing cur with
  | zero => simp [adjustLoop] at h
  | succ n ih =>
    simp only [adjustLoop] at h
    by_cases hc : td (cur + delta)
    · simp [hc] at h; subst h; exact hc
    · simp [hc] at h; exact ih h

theorem adjustLoop_some_spec {td : Int → Bool} {delta cur : Int} {n : Nat} {t : Int}
    (h : adjustLoop td delta cur n = some t) :
    ∃ k : Nat, 1 ≤ k ∧ k ≤ n ∧ t = cur + (k : Int) * delta ∧
      td t = true ∧ ∀ j : Nat, 1 ≤ j → j < k → td (cur + (j : Int) * delta) = false := by
  induction n generalizing cur with
  | zero => simp [adjustLoop] at h
  | succ n ih =>
    simp only [adjustLoop] at h
    by_cases hc : td (cur + delta)
    · simp [hc] at h
      refine ⟨1, le_refl 1, by omega, by omega, ?_, ?_⟩
      · subst h; simpa using hc
      · intro j hj hj1; omega
    · simp [hc] at h
      obtain ⟨k, hk1, hkn, ht, htd, hall⟩ := ih h
      refine ⟨k + 1, by omega, by omega, by push_cast; linarith [ht], htd, ?_⟩
      intro j hj hjk
      rcases Nat.eq_or_lt_of_le hj with hj1 | hj2
      · have : cur + (j : Int) * delta = cur + delta := by
          rw [← hj1]; push_cast; ring
        rw [this]; simpa using hc
      · have hj' : 1 ≤ j - 1 := by omega
        have hjk' : j - 1 < k := by omega
        have := hall (j - 1) hj' hjk'
        have heq : cur + delta + ((j - 1 : Nat) : Int) * delta = cur + (j : Int) * delta := by
          have : ((j - 1 : Nat) : Int) = (j : Int) - 1 := by omega
          rw [this]; ring
        rw [heq] at this; exact this

theorem adjustLoop_none_spec {td : Int → Bool} {delta cur : Int} {n : Nat}
    (h : adjustLoop td delta cur n = none) :
    ∀ k : Nat, 1 ≤ k → k ≤ n → td (cur + (k : Int) * delta) = false := by
  induction n generalizing cur with
  | zero => intro k hk1 hk0; omega
  | succ n ih =>
    simp only [adjustLoop] at h
    by_cases hc : td (cur + delta)
    · simp [hc] at h
    · simp [hc] at h
      intro k hk1 hkn
      rcases Nat.eq_or_lt_of_le hk1 with hk | hk
      · have : cur + (k : Int) * delta = cur + delta := by
          rw [← hk]; push_cast; ring
        rw [this]; simpa using hc
      · have := ih h (k - 1) (by omega) (by omega)
        have heq : cur + delta + ((k - 1 : Nat) : Int) * delta = cur + (k : Int) * delta := by
          have : ((k - 1 : Nat) : Int) = (k : Int) - 1 := by omega
          rw [this]; ring
        rw [heq] at this; exact this

theorem adjust_fixed_of_td {td : Int → Bool} {d : Int} (h : td d = true)
    (dir : Direction) : adjust_to_trading_day td d dir = d := by
  simp [adjust_to_trading_day, h]

theorem adjust_result_td_or_self (td : Int → Bool) (d : Int) (dir : Direction) :
    td (adjust_to_trading_day td d dir) = true ∨ adjust_to_trading_day td d dir = d := by
  by_cases h : td d
  · left; rw [adjust_fixed_of_td h]; exact h
  · unfold adjust_to_trading_day
    simp only [h, if_false]
    cases hl : adjustLoop td (deltaOf dir) d 30 with
    | none => right; rfl
    | some t => left; exact adjustLoop_some_td hl

theorem adjust_idem (td : Int → Bool) (d : Int) (dir : Direction) :
    adjust_to_trading_day td (adjust_to_trading_day td d dir) dir =
      adjust_to_trading_day td d dir := by
  rcases adjust_result_td_or_self td d dir with h | h
  · exact adjust_fixed_of_td h dir
  · rw [h]; exact h

theorem adjust_backward_le (td : Int → Bool) (d : Int) :
    adjust_to_trading_day td d .backward ≤ d := by
  unfold adjust_to_trading_day
  by_cases h : td d
  · simp [h]
  · cases hl : adjustLoop td (deltaOf .backward) d 30 with
    | none => simp [h, hl]
    | some t =>
      obtain ⟨k, hk1, _, ht, _, _⟩ := adjustLoop_some_spec hl
      simp only [deltaOf] at ht
      rw [mul_neg_one] at ht
      simp only [h, Bool.false_eq_true, if_false, hl]
      omega

theorem adjust_forward_ge (td : Int → Bool) (d : Int) :
    d ≤ adjust_to_trading_day td d .forward := by
  unfold adjust_to_trading_day
  by_cases h : td d
  · simp [h]
  · cases hl : adjustLoop td (deltaOf .forward) d 30 with
    | none => simp [h, hl]
    | some t =>
      obtain ⟨k, hk1, _, ht, _, _⟩ := adjustLoop_some_spec hl
      simp only [deltaOf] at ht
      rw [mul_one] at ht
      simp only [h, Bool.false_eq_true, if_false, hl]
      omega

theorem sorted_head_le_getLast {l : List Int} (hs : l.Sorted (· ≤ ·)) (h : l ≠ []) :
    l.head h ≤ l.getLast h := by
  match l with
  | a :: rest =>
    have hmem : (a :: rest).getLast h ∈ a :: rest := List.getLast_mem h
    rcases List.mem_cons.mp hmem with heq | hmem'
    · rw [List.head_cons, heq]
    · exact (List.sorted_cons.mp hs).1 _ hmem'

/-- C5: for every date `d` and direction, `snap` (the source's
`adjust_to_trading_day` over `is_trading_day`) is idempotent; it returns a
trading day unchanged; and on a non-trading day it either fails all 30
single-day attempts and returns the input, or returns the first trading day
reached by stepping one calendar day at a time in the requested direction,
within 30 steps. -/
theorem claim_snap_idempotent (workday : Int → Bool) (yearOf : Int → Int)
    (d : Int) (dir : Direction) :
    adjust_to_trading_day (is_trading_day workday yearOf)
        (adjust_to_trading_day (is_trading_day workday yearOf) d dir) dir =
      adjust_to_trading_day (is_trading_day workday yearOf) d dir
    ∧ (is_trading_day workday yearOf d = true →
        adjust_to_trading_day (is_trading_day workday yearOf) d dir = d)
    ∧ (is_trading_day workday yearOf d = false →
        ((∀ k : Nat, 1 ≤ k → k ≤ 30 →
            is_trading_day workday yearOf (d + (k : Int) * deltaOf dir) = false) ∧
          adjust_to_trading_day (is_trading_day workday yearOf) d dir = d) ∨
        (∃ k : Nat, 1 ≤ k ∧ k ≤ 30 ∧
          adjust_to_trading_day (is_trading_day workday yearOf) d dir =
            d + (k : Int) * deltaOf dir ∧
          is_trading_day workday yearOf (d + (k : Int) * deltaOf dir) = true ∧
          ∀ j : Nat, 1 ≤ j → j < k →
            is_trading_day workday yearOf (d + (j : Int) * deltaOf dir) = false)) := by
  set td := is_trading_day workday yearOf with htd
  refine ⟨adjust_idem td d dir, fun h => adjust_fixed_of_td h dir, ?_⟩
  intro h
  unfold adjust_to_trading_day
  simp only [h, Bool.false_eq_true, if_false]
  cases hl : adjustLoop td (deltaOf dir) d 30 with
  | none =>
    exact Or.inl ⟨adjustLoop_none_spec hl, rfl⟩
  | some t =>
    obtain ⟨k, hk1, hk30, ht, htt, hall⟩ := adjustLoop_some_spec hl
    exact Or.inr ⟨k, hk1, hk30, by rw [← ht], by rw [← ht]; exact htt, hall⟩

/-- C5 witness: a concrete trading day (with an all-workday oracle and a
constant in-range year) is a fixed point of `adjust_to_trading_day`. -/
theorem claim_snap_idempotent_witness :
    adjust_to_trading_day (is_trading_day (fun _ => true) (fun _ => 2025)) 0 .forward = 0 :=
  (claim_snap_idempotent (fun _ => true) (fun _ => 2025) 0 .forward).2.1 (by decide)

set_option maxRecDepth 4000 in
/-- C2 (code bug): at 12:00 (minutes-of-day 720), which lies in the mid-day
break between the last morning 60-minute candle (10:30–11:30) and the first
afternoon candle (13:00), `get_kline_at_time` returns the day's **last**
candle 14:00–15:00 marked finished — a candle whose window has not even
started — instead of the previous (last morning) candle 10:30–11:30 sealed,
as the spec states. -/
theorem claim_midday_break_returns_future_candle :
    get_kline_at_time .m60 720 = (840, 900, true) ∧
      MORNING_END ≤ 720 ∧ 720 < AFTERNOON_START ∧ 720 < 840 ∧
      (840, 900, true) ≠ ((630 : Nat), (690 : Nat), true) := by
  decide

set_option maxRecDepth 8000 in
/-- C3 (code bug): the CLI entry point ignores the parsed `--start-index`
argument and passes the hard-coded literal 477, so invoking the CLI with
`--start-index 0` over a 478-symbol universe starts the walk at symbol 477
rather than symbol 0. -/
theorem claim_start_index_ignored :
    batch_main_selection 0 none (List.range 478) = (List.range 478).drop 477 ∧
      batch_main_selection 0 none (List.range 478) ≠ (List.range 478).drop 0 := by
  constructor
  · rfl
  · intro h
    have := congrArg List.length h
    simp [batch_main_selection, batch_import_selection] at this

/-- C4: over the sorted candle dates already present for the window, gap
detection returns the whole window when the store is empty; otherwise it
contains the leading gap `(begin, prev_trading_day first)` exactly when
`begin < first`, the trailing gap `(next_trading_day last, end)` exactly
when `last < end`, and no other interval. -/
theorem claim_gap_detection (workday : Int → Bool) (yearOf : Int → Int)
    (begin_date end_date : Int) (l : List Int) (hs : l.Sorted (· ≤ ·)) :
    (l = [] →
      find_missing_ranges (is_trading_day workday yearOf) begin_date end_date l =
        [(begin_date, end_date)]) ∧
    ∀ (h : l ≠ []),
      (((begin_date, prev_trading_day (is_trading_day workday yearOf) (l.head h)) ∈
          find_missing_ranges (is_trading_day workday yearOf) begin_date end_date l) ↔
        begin_date < l.head h) ∧
      (((next_trading_day (is_trading_day workday yearOf) (l.getLast h), end_date) ∈
          find_missing_ranges (is_trading_day workday yearOf) begin_date end_date l) ↔
        l.getLast h < end_date) ∧
      ∀ g ∈ find_missing_ranges (is_trading_day workday yearOf) begin_date end_date l,
        g = (begin_date, prev_trading_day (is_trading_day workday yearOf) (l.head h)) ∨
        g = (next_trading_day (is_trading_day workday yearOf) (l.getLast h), end_date) := by
  set td := is_trading_day workday yearOf with htd
  constructor
  · intro hl; subst hl; rfl
  · intro h
    match l, h, hs with
    | first :: rest, h, hs =>
      have hfl : first ≤ (first :: rest).getLast h := by
        have := sorted_head_le_getLast hs h
        simpa using this
      have hprev : prev_trading_day td first ≤ first - 1 :=
        adjust_backward_le td (first - 1)
      have hnext : (first :: rest).getLast h + 1 ≤
          next_trading_day td ((first :: rest).getLast h) :=
        adjust_forward_ge td ((first :: rest).getLast h + 1)
      simp only [List.head_cons]
      by_cases hb : begin_date < first <;>
        by_cases he : (first :: rest).getLast h < end_date <;>
          simp only [find_missing_ranges, gt_iff_lt, hb, he, if_true, if_false,
            List.nil_append, List.append_nil, List.mem_singleton, List.mem_cons,
            List.not_mem_nil, List.mem_append, Prod.mk.injEq, iff_false,
            not_and, not_lt, List.singleton_append, or_false, false_or,
            iff_true]
      all_goals
        first
          | tauto
          | (refine ⟨?_, ?_, ?_⟩ <;>
              first
                | tauto
                | (rintro ⟨h1, h2⟩; omega))

/-- C4 witness: an empty store over the window `[0, 5]` yields the single
gap `(0, 5)`. -/
theorem claim_gap_detection_witness :
    find_missing_ranges (is_trading_day (fun _ => true) (fun _ => 2025)) 0 5 [] =
      [(0, 5)] :=
  (claim_gap_detection (fun _ => true) (fun _ => 2025) 0 5 [] List.sorted_nil).1 rfl

/-- The number of candles of a resolution whose `end_ts` lies at or before
`now` (the claims' `expected_finished`), counted over the candle end
instants `start + m`. -/
def expected_finished (kt : KlineType) (now : Nat) : Nat :=
  ((get_all_kline_times kt).map (· + minutesOf kt)).countP (fun e => decide (e ≤ now))

theorem finishedKlines_eq_expected (kt : KlineType) (now : Nat) :
    finishedKlines kt now = expected_finished kt now := by
  unfold finishedKlines expected_finished
  rw [List.countP_map]
  rfl

theorem check_daily_eq (historyCount realtimeCount now : Nat) :
    check_today_data_exists .daily (.ok (historyCount, realtimeCount)) now =
      decide (AFTERNOON_END ≤ now ∧ 0 < historyCount) := by
  simp only [check_today_data_exists, get_kline_at_time]
  by_cases hc : AFTERNOON_END ≤ now ∧ 0 < historyCount
  · rw [if_pos ⟨by simp [hc.1], hc.2⟩, decide_eq_true hc]
  · rw [if_neg (by simpa using hc), decide_eq_false hc]

/-- C6: an intraday minute refresh skips the vendor call exactly when
today's historical-row count plus intraday-row count reaches the number of
candles already finished at `now` and at least one candle has finished; a
daily refresh skips exactly when `now` is past the session close (15:00)
and a historical row for today exists. -/
theorem claim_freshness_short_circuit (kt : KlineType) (hkt : isDailyLike kt = false)
    (historyCount realtimeCount now : Nat) (today : Int) (df : List KRow)
    (hist rt : List KRow) (dfDailyNonempty : Bool) :
    ((update_minute_smart kt (.ok (historyCount, realtimeCount)) today now df
        hist rt).calledVendor = false ↔
      (expected_finished kt now ≤ historyCount + realtimeCount ∧
        1 ≤ expected_finished kt now)) ∧
    ((update_daily_smart .daily (.ok (historyCount, realtimeCount)) today now
        dfDailyNonempty hist rt).1 = false ↔
      (AFTERNOON_END ≤ now ∧ 1 ≤ historyCount)) := by
  constructor
  · have hcheck : check_today_data_exists kt (.ok (historyCount, realtimeCount)) now =
        decide (finishedKlines kt now ≤ historyCount + realtimeCount ∧
          0 < finishedKlines kt now) := by
      cases kt <;> simp_all [check_today_data_exists, isDailyLike]
    unfold update_minute_smart
    rw [hcheck, finishedKlines_eq_expected]
    by_cases hc : expected_finished kt now ≤ historyCount + realtimeCount ∧
        0 < expected_finished kt now
    · rw [if_pos (by simpa using hc)]
      exact iff_of_true rfl ⟨hc.1, hc.2⟩
    · rw [if_neg (by simpa using hc)]
      exact iff_of_false (by simp) (fun hx => hc ⟨hx.1, hx.2⟩)
  · unfold update_daily_smart
    rw [check_daily_eq]
    by_cases hc : AFTERNOON_END ≤ now ∧ 0 < historyCount
    · rw [if_pos (by simpa using hc)]
      exact iff_of_true rfl ⟨hc.1, hc.2⟩
    · rw [if_neg (by simpa using hc)]
      refine iff_of_false ?_ (fun hx => hc ⟨hx.1, hx.2⟩)
      cases dfDailyNonempty
      · simp
      · by_cases hf : (get_kline_at_time .daily now).2.2 = true <;> simp [hf]

/-- C6 witness: for the 60-minute resolution at the session close (15:00),
4 historical rows and 0 intraday rows, all 4 candles are finished, so the
vendor call is skipped. -/
theorem claim_freshness_short_circuit_witness :
    (update_minute_smart .m60 (.ok (4, 0)) 0 900 [] [] []).calledVendor = false :=
  (claim_freshness_short_circuit .m60 rfl 4 0 900 0 [] [] [] true).1.mpr (by decide)

/-- C9: when the database query inside the freshness check raises, the check
returns `false` (data treated as incomplete), and both the minute and the
daily refresh therefore proceed to call the vendor rather than propagating
the error. -/
theorem claim_db_error_treated_incomplete (kt : KlineType) (now : Nat) (today : Int)
    (e : Unit) (df : List KRow) (hist rt : List KRow) (dfDailyNonempty : Bool) :
    check_today_data_exists kt (.error e) now = false ∧
    (update_minute_smart kt (.error e) today now df hist rt).calledVendor = true ∧
    (update_daily_smart kt (.error e) today now dfDailyNonempty hist rt).1 = true := by
  refine ⟨rfl, ?_, ?_⟩
  · simp [update_minute_smart, check_today_data_exists]
  · unfold update_daily_smart
    rw [show check_today_data_exists kt (.error e) now = false from rfl]
    simp only [Bool.false_eq_true, if_false]
    cases dfDailyNonempty
    · simp
    · by_cases hf : (get_kline_at_time .daily now).2.2 = true <;> simp [hf]

/-- C8: an intraday refresh of an index symbol (prefix `sh.000` or
`sz.399`) at a minute resolution logs, writes to neither store, and
returns without raising: the result is `ok` with both stores unchanged. -/
theorem claim_index_minute_refresh_noop (code : String) (kt : KlineType)
    (counts : Except Unit (Nat × Nat)) (today : Int) (now : Nat)
    (dfDailyNonempty : Bool) (dfMin : List KRow) (hist rt : List KRow)
    (hidx : is_index_code code = true) (hmin : isDailyLike kt = false) :
    update_realtime_kline_smart code kt counts today now dfDailyNonempty dfMin
      hist rt = .ok (hist, rt) := by
  unfold update_realtime_kline_smart
  rw [hmin, hidx]
  rfl

/-- C8 witness: the Shanghai composite index `sh.000001` at the 60-minute
resolution is a no-op refresh. -/
theorem claim_index_minute_refresh_noop_witness :
    update_realtime_kline_smart "sh.000001" .m60 (.ok (0, 0)) 0 600 false []
      [⟨0, 630⟩] [] = .ok ([⟨0, 630⟩], []) :=
  claim_index_minute_refresh_noop "sh.000001" .m60 (.ok (0, 0)) 0 600 false []
    [⟨0, 630⟩] [] (by decide) rfl

/-- C7: a read whose requested begin date precedes the symbol's known list
date `L` clamps begin to `max(begin, L)` before the forward snap, and — the
symbol being listed, `L ≤ today` — the emitted merged stream contains no
candle dated before `L`. -/
theorem claim_list_date_clamping (workday : Int → Bool) (yearOf : Int → Int)
    (listDate beginDate endDate today : Int) (supported : Bool)
    (hist rt : List KRow) (hb : beginDate < listDate) (ht : listDate ≤ today) :
    init_begin_date (is_trading_day workday yearOf) (some listDate) (some beginDate) =
      some (adjust_to_trading_day (is_trading_day workday yearOf)
        (max beginDate listDate) .forward) ∧
    ∀ r ∈ query_from_database
        (adjust_to_trading_day (is_trading_day workday yearOf)
          (max beginDate listDate) .forward) endDate today supported hist rt,
      listDate ≤ r.day := by
  set td := is_trading_day workday yearOf with htd
  have hmax : max beginDate listDate = listDate := max_eq_right (le_of_lt hb)
  constructor
  · simp only [init_begin_date, hmax, if_pos hb]
  · intro r hr
    unfold query_from_database at hr
    rcases List.mem_append.mp hr with h1 | h2
    · have hsel := (List.mem_filter.mp h1).2
      simp only [Bool.and_eq_true, decide_eq_true_eq] at hsel
      have hL : listDate ≤ adjust_to_trading_day td (max beginDate listDate) .forward := by
        rw [hmax]; exact adjust_forward_ge td listDate
      omega
    · by_cases hcond : supported = true ∧ today ≤ endDate
      · rw [if_pos hcond] at h2
        have := (List.mem_filter.mp h2).2
        simp only [beq_iff_eq] at this
        omega
      · rw [if_neg hcond] at h2
        exact absurd h2 (List.not_mem_nil r)

/-- C7 witness: begin 5 < list date 10 ≤ today 15, an all-workday calendar:
begin is clamped to 10 (a trading day, so the snap fixes it) and every
emitted row is dated at or after day 10. -/
theorem claim_list_date_clamping_witness :
    init_begin_date (is_trading_day (fun _ => true) (fun _ => 2025)) (some 10) (some 5) =
      some (adjust_to_trading_day (is_trading_day (fun _ => true) (fun _ => 2025))
        (max 5 10) .forward) ∧
    ∀ r ∈ query_from_database
        (adjust_to_trading_day (is_trading_day (fun _ => true) (fun _ => 2025))
          (max 5 10) .forward) 20 15 true [⟨12, 0⟩] [⟨15, 0⟩],
      (10 : Int) ≤ r.day :=
  claim_list_date_clamping (fun _ => true) (fun _ => 2025) 10 5 20 15 true
    [⟨12, 0⟩] [⟨15, 0⟩] (by decide) (by decide)

/-- C10 counterexample: the 10-character string `"aaaaaaaaaa"` is not
shorter than 10 characters, yet `parse_time_column` raises (`int("aaaa")`
raises `ValueError`, which the source does not catch) — refuting "raises
exactly when the string form is shorter than 10 characters". -/
theorem claim_parse_time_raises_on_long_input :
    parse_time_column "aaaaaaaaaa" = .error "ValueError" ∧
      "aaaaaaaaaa".toList.length = 10 :=
  ⟨rfl, rfl⟩

/-- C10 amended: strings shorter than 10 characters raise the "unknown time
column format" exception; for strings of at least 10 characters whose
year/month/day slices all parse as integers, the result is a `CTime` whose
year, month and day come from the first 10 characters, with hour and minute
both 0 whenever there is no parseable hour part (length < 16 or the hour
slice unparseable); but when a date slice fails to parse, a `ValueError`
propagates instead. -/
theorem claim_parse_time_column (s : String) :
    (s.toList.length < 10 →
      parse_time_column s = .error ("unknown time column format:" ++ s)) ∧
    (10 ≤ s.toList.length →
      ((pyInt (s.toList.take 4) = none ∨ pyInt ((s.toList.drop 5).take 2) = none ∨
          pyInt ((s.toList.drop 8).take 2) = none) →
        parse_time_column s = .error "ValueError") ∧
      (∀ y mo d : Int, pyInt (s.toList.take 4) = some y →
        pyInt ((s.toList.drop 5).take 2) = some mo →
        pyInt ((s.toList.drop 8).take 2) = some d →
        ∃ hh mm : Int, parse_time_column s = .ok ⟨y, mo, d, hh, mm⟩ ∧
          ((s.toList.length < 16 ∨ pyInt ((s.toList.drop 11).take 2) = none) →
            hh = 0 ∧ mm = 0))) := by
  constructor
  · intro h
    unfold parse_time_column
    rw [if_neg (by omega)]
  · intro h10
    constructor
    · intro hnone
      unfold parse_time_column
      rw [if_pos h10]
      rcases hA : pyInt (s.toList.take 4) with _ | y <;>
        rcases hB : pyInt ((s.toList.drop 5).take 2) with _ | mo <;>
          rcases hC : pyInt ((s.toList.drop 8).take 2) with _ | d <;>
            simp_all
    · intro y mo d hA hB hC
      unfold parse_time_column
      rw [if_pos h10]
      simp only [hA, hB, hC]
      by_cases h16 : 16 ≤ s.toList.length
      · rw [if_pos h16]
        rcases hH : pyInt ((s.toList.drop 11).take 2) with _ | hh
        · exact ⟨0, 0, rfl, fun _ => ⟨rfl, rfl⟩⟩
        · rcases hM : pyInt ((s.toList.drop 14).take 2) with _ | mm
          · refine ⟨hh, 0, rfl, ?_⟩
            rintro (h1 | h2)
            · omega
            · simp at h2
          · refine ⟨hh, mm, rfl, ?_⟩
            rintro (h1 | h2)
            · omega
            · simp at h2
      · rw [if_neg h16]
        exact ⟨0, 0, rfl, fun _ => ⟨rfl, rfl⟩⟩

/-- C10 witness: the plain date string `"2024-01-02"` parses with the date
taken from the first 10 characters and hour = minute = 0. -/
theorem claim_parse_time_column_witness :
    parse_time_column "2024-01-02" = .ok ⟨2024, 1, 2, 0, 0⟩ := by
  obtain ⟨hh, mm, hok, hzero⟩ :=
    ((claim_parse_time_column "2024-01-02").2 (by decide)).2 2024 1 2
      (by decide) (by decide) (by decide)
  obtain ⟨h1, h2⟩ := hzero (Or.inl (by decide))
  rw [hok, h1, h2]

/-- Ascending order on candle keys: earlier date, or same date and earlier
minutes-of-day (the order `ORDER BY time ASC` delivers). -/
def endTsLe (a b : KRow) : Prop :=
  a.day < b.day ∨ (a.day = b.day ∧ a.tmin ≤ b.tmin)

/-- C1 counterexample: with a single-day window that is today, a historical
store holding the sealed 10:30 candle and the intraday store still holding
its stale copy (the promotion to the historical table never deletes the
intraday row), the merged stream emits `end_ts` 10:30 twice — refuting both
the "only intraday rows strictly after the last historical `end_ts`" filter
and the once-per-`end_ts` uniqueness. -/
theorem claim_merge_emits_duplicate :
    query_from_database 0 0 0 true [⟨0, 630⟩] [⟨0, 630⟩] = [⟨0, 630⟩, ⟨0, 630⟩] ∧
      ¬ ((query_from_database 0 0 0 true [⟨0, 630⟩] [⟨0, 630⟩]).map
          KRow.endTs).Nodup := by
  refine ⟨rfl, ?_⟩
  decide

/-- C1 amended: the merged stream is exactly the selected historical rows
(ascending in `end_ts` whenever the table delivers them so) followed by
**all** of today's intraday rows, with no filtering against the last
historical `end_ts`; consequently every `end_ts` appears once per selected
store containing it — twice, not once, when both stores contain it. -/
theorem claim_merge_structure (begin_date end_date today : Int) (supported : Bool)
    (hist rt : List KRow) (hs : hist.Pairwise endTsLe) :
    query_from_database begin_date end_date today supported hist rt =
      hist.filter (fun r => decide (begin_date ≤ r.day) && decide (r.day ≤ end_date)) ++
        (if supported ∧ today ≤ end_date then rt.filter (fun r => r.day == today)
         else []) ∧
    (hist.filter (fun r => decide (begin_date ≤ r.day) &&
        decide (r.day ≤ end_date))).Pairwise endTsLe ∧
    ∀ x : Int × Nat,
      ((query_from_database begin_date end_date today supported hist rt).map
          KRow.endTs).count x =
        ((hist.filter (fun r => decide (begin_date ≤ r.day) &&
            decide (r.day ≤ end_date))).map KRow.endTs).count x +
          ((if supported ∧ today ≤ end_date then rt.filter (fun r => r.day == today)
            else []).map KRow.endTs).count x := by
  refine ⟨rfl, hs.filter _, ?_⟩
  intro x
  unfold query_from_database
  rw [List.map_append, List.count_append]

/-- C1 amended witness: the counterexample stores instantiate the count
law — `end_ts` 10:30 is counted once from each store. -/
theorem claim_merge_structure_witness :
    ((query_from_database 0 0 0 true [⟨0, 630⟩] [⟨0, 630⟩]).map KRow.endTs).count
        (0, 630) =
      (([⟨0, 630⟩] : List KRow).filter (fun r => decide ((0 : Int) ≤ r.day) &&
          decide (r.day ≤ (0 : Int)))).length +
        (([⟨0, 630⟩] : List KRow).filter (fun r => r.day == (0 : Int))).length := by
  have h := (claim_merge_structure 0 0 0 true [⟨0, 630⟩] [⟨0, 630⟩]
    (by simp)).2.2 (0, 630)
  rw [h]
  decide

end Chan3
